import Mathlib

/-!
Shallow embedding of the ffmpeg_example repository: the three programs
video_decode.cpp, video_encode.cpp and video_hw_decode.cpp.

The FFmpeg library itself is an external collaborator; its calls are
modelled by oracles: traces of avcodec_receive_frame / avcodec_receive_packet
results, return values of avcodec_send_packet / avcodec_send_frame, and an
abstract bitstream parser.  Every control-flow decision of the repository's
own code (the drain loops, the parse-cursor loop, the flush calls, the
startup checks) is translated directly from the C sources.
-/

/-- Value of AVERROR(EAGAIN) on Linux: EAGAIN is 11 and AVERROR negates it.
Only its negativity and distinctness from AVERROR_EOF matter to the code. -/
def AVERROR_EAGAIN : Int := -11

/-- Value of AVERROR_EOF: the negated FFERRTAG of the characters E, O, F,
space, a negative sentinel distinct from every -errno value. -/
def AVERROR_EOF : Int := -541478725

/-- Outcome of a main-loop fragment: normal completion, a path that called
exit(1), or an engine/parser trace too short for the loop (fuel ran out). -/
inductive MainRes (α : Type) where
  | ok (a : α)
  | fatal
  | stuck
deriving DecidableEq

namespace VideoDecode

/-- Chunk size of reads from the input file (video_decode.cpp line 18). -/
def INBUF_SIZE : Nat := 4096

/-- Size of the parser padding region that must follow the input chunk in
memory (AV_INPUT_BUFFER_PADDING_SIZE of the modelled FFmpeg version). -/
def AV_INPUT_BUFFER_PADDING_SIZE : Nat := 64

/-- Data of a decoded frame as used by `decode`/`pgm_save`: plane-0 bytes
addressed through `data`, with row stride `linesize` (video_decode.cpp
lines 64-65 pass data[0], linesize[0], width, height). -/
structure DecFrame where
  width : Nat
  height : Nat
  linesize : Nat
  data : Nat → Nat

/-- Artifact written by `pgm_save`: the textual P5 header plus the pixel
rows (video_decode.cpp lines 20-30). -/
structure PGMFile where
  header : String
  bytes : List Nat
deriving DecidableEq

/-- Model of `pgm_save buf wrap xsize ysize`: the header records the
dimensions and the maximum sample value 255; each of the `ysize` rows
contributes `xsize` bytes taken from the strided source at `i * wrap`. -/
def pgm_save (buf : Nat → Nat) (wrap xsize ysize : Nat) : PGMFile :=
  { header := "P5 " ++ toString xsize ++ " " ++ toString ysize ++ " 255",
    bytes := (List.range ysize).flatMap fun i =>
      (List.range xsize).map fun j => buf (i * wrap + j) }

/-- One result of avcodec_receive_frame: either a decoded frame (the call
returned 0 and incremented the context's cumulative frame counter), or a
bare return code. -/
inductive RecvF where
  | frame (f : DecFrame)
  | code (e : Int)

/-- Outcome of the `decode` helper: a normal return carrying the engine's
updated cumulative frame counter and the artifacts saved in order, an
`exit(1)`, or a receive trace that ended while the loop still demanded
another result (not reachable for well-formed engine traces). -/
inductive DecOut where
  | ok (frame_number : Nat) (arts : List (String × PGMFile))
  | fatal
  | stuck
deriving DecidableEq

/-- Drain loop of `decode` (video_decode.cpp lines 44-66): receive until
EAGAIN or EOF (normal return to the caller), treat any other negative
receive result as exit(1), and save each received frame to the file named
"filename-N" where N is the engine's own post-increment frame counter. -/
def decodeDrain (filename : String) : Nat → List RecvF → DecOut
  | _, [] => .stuck
  | frame_number, .code ret :: _ =>
    if ret = AVERROR_EAGAIN ∨ ret = AVERROR_EOF then .ok frame_number []
    else if ret < 0 then .fatal
    else .stuck
  | frame_number, .frame f :: rest =>
    match decodeDrain filename (frame_number + 1) rest with
    | .ok fn2 arts =>
        .ok fn2 ((filename ++ "-" ++ toString (frame_number + 1),
                  pgm_save f.data f.linesize f.width f.height) :: arts)
    | r => r

/-- The `decode` helper (video_decode.cpp lines 32-67): send the packet
(exit(1) when avcodec_send_packet fails), then drain.  `sendRet` is the
send call's return value, `tr` the receive-result trace that follows this
submission. -/
def decode (filename : String) (frame_number : Nat) (sendRet : Int)
    (tr : List RecvF) : DecOut :=
  if sendRet < 0 then .fatal else decodeDrain filename frame_number tr

/-- Sequence of `decode` calls as issued by main's packet loop: each call
supplies its send return value and its receive trace; the engine's
cumulative frame counter threads through all calls and artifacts
accumulate in order. -/
def decodeRun (filename : String) : Nat → List (Int × List RecvF) → DecOut
  | frame_number, [] => .ok frame_number []
  | frame_number, c :: calls =>
    match decode filename frame_number c.1 c.2 with
    | .ok fn1 arts1 =>
      match decodeRun filename fn1 calls with
      | .ok fn2 arts2 => .ok fn2 (arts1 ++ arts2)
      | r => r
    | r => r

/-- Artifacts `decode` saves for a run of consecutively received frames,
starting from engine frame counter `fn`: the names carry the successive
post-increment counter values. -/
def savedArts (filename : String) : Nat → List DecFrame → List (String × PGMFile)
  | _, [] => []
  | fn, f :: fs =>
    (filename ++ "-" ++ toString (fn + 1),
     pgm_save f.data f.linesize f.width f.height) :: savedArts filename (fn + 1) fs

/-- Inner parse loop of main (video_decode.cpp lines 146-161).  The parser
oracle `O` maps the call index and the current remaining size to the pair
of av_parser_parse2's return value (consumed byte count, negative on
malformed input, which the code turns into exit(1)) and the emitted
pkt-size.  Each iteration advances the cursor `offset` by the consumed
length and shrinks `dsize` by the same amount, until the chunk is fully
consumed.  Records are (offset, consumed, pktSize) per call.  `fuel`
bounds the iteration count; running out yields `stuck`. -/
def parseLoop (O : Nat → Nat → Int × Nat) :
    Nat → Nat → Nat → Nat → MainRes (List (Nat × Nat × Nat))
  | _, 0, _, _ => .stuck
  | k, fuel + 1, offset, dsize =>
    if dsize = 0 then .ok []
    else
      if (O k dsize).1 < 0 then .fatal
      else
        match parseLoop O (k + 1) fuel (offset + (O k dsize).1.toNat)
            (dsize - (O k dsize).1.toNat) with
        | .ok recs => .ok ((offset, (O k dsize).1.toNat, (O k dsize).2) :: recs)
        | x => x

/-- Outer read loop of main (video_decode.cpp lines 140-169) at the
granularity of chunk sizes: each successful fread yields one chunk that the
inner parse loop consumes entirely; parser call indices continue across
chunks. -/
def chunksLoop (O : Nat → Nat → Int × Nat) (fuel : Nat) :
    Nat → List Nat → MainRes (List (Nat × Nat × Nat))
  | _, [] => .ok []
  | k, csz :: rest =>
    match parseLoop O k fuel 0 csz with
    | .ok recs =>
      match chunksLoop O fuel (k + recs.length) rest with
      | .ok more => .ok (recs ++ more)
      | x => x
    | x => x

/-- Submissions main makes to the decoder, in order (video_decode.cpp lines
140-172): inside the loop a packet is submitted only when the parser
emitted a nonzero pkt-size (`if (pkt->size) decode(...)`), recorded as
`some pktSize`; after the read loop ends, the single flush call
`decode(c, frame, NULL, outfilename)` is recorded as `none`. -/
def decodeMainSubs (O : Nat → Nat → Int × Nat) (fuel : Nat)
    (chunks : List Nat) : MainRes (List (Option Nat)) :=
  match chunksLoop O fuel 0 chunks with
  | .ok recs =>
    .ok ((recs.filterMap fun r => if r.2.2 ≠ 0 then some (some r.2.2) else none)
          ++ [none])
  | .fatal => .fatal
  | .stuck => .stuck

/-- Cursor discipline of the inner parse loop: starting at offset `o` with
`d` bytes remaining, every record consumes its length from the current
cursor position, and the chunk ends fully consumed. -/
def chain : Nat → Nat → List (Nat × Nat × Nat) → Prop
  | _, d, [] => d = 0
  | o, d, r :: l => r.1 = o ∧ r.2.1 ≤ d ∧ chain (o + r.2.1) (d - r.2.1) l

/-- In-memory input buffer after the one-time memset of the padding region
(video_decode.cpp line 131): the chunk area keeps its previous contents,
the padding bytes become zero. -/
def memsetPad (b : List Nat) : List Nat :=
  b.take INBUF_SIZE ++ List.replicate AV_INPUT_BUFFER_PADDING_SIZE 0

/-- In-memory input buffer after one fread (video_decode.cpp line 142): the
read stores its `chunk` at the start of the buffer and leaves everything
beyond the returned byte count untouched. -/
def freadChunk (b : List Nat) (chunk : List Nat) : List Nat :=
  chunk ++ b.drop chunk.length

end VideoDecode

namespace VideoEncode

/-- One result of avcodec_receive_packet: either a compressed packet (the
call returned 0, the packet bytes are written to the output file), or a
bare return code. -/
inductive RecvP where
  | pkt (data : List Nat)
  | code (e : Int)
deriving DecidableEq

/-- Outcome of the `encode` helper: a normal return carrying the packet
byte strings written to the output file in order, an `exit(1)`, or a
receive trace that ended while the loop still demanded another result. -/
inductive EncOut where
  | ok (writes : List (List Nat))
  | fatal
  | stuck
deriving DecidableEq

/-- Drain loop of `encode` (video_encode.cpp lines 32-49): receive until
EAGAIN or EOF (normal return), treat any other negative receive result as
exit(1), and fwrite each received packet's bytes to the output file. -/
def encodeDrain : List RecvP → EncOut
  | [] => .stuck
  | .code ret :: _ =>
    if ret = AVERROR_EAGAIN ∨ ret = AVERROR_EOF then .ok []
    else if ret < 0 then .fatal
    else .stuck
  | .pkt d :: rest =>
    match encodeDrain rest with
    | .ok ws => .ok (d :: ws)
    | r => r

/-- The `encode` helper (video_encode.cpp lines 17-50): send the frame
(exit(1) when avcodec_send_frame fails), then drain packets. -/
def encode (sendRet : Int) (tr : List RecvP) : EncOut :=
  if sendRet < 0 then .fatal else encodeDrain tr

/-- The fixed MPEG end-sequence trailer (video_encode.cpp line 60:
uint8_t endcode[] = 0, 0, 1, 0xb7). -/
def endcode : List Nat := [0, 0, 1, 0xb7]

/-- The 25-iteration frame loop of main (video_encode.cpp lines 141-163),
processing frames `i, i+1, ...` for `n` iterations.  `E` maps the frame
index to the send return value and receive trace of that `encode` call.
Returns the submissions made (each a `some frameIndex`, since the in-loop
calls always pass a real frame) together with the packet writes, in
order. -/
def encodeFramesFrom (E : Nat → Int × List RecvP) :
    Nat → Nat → MainRes (List (Option Nat) × List (List Nat))
  | _, 0 => .ok ([], [])
  | i, n + 1 =>
    match encode (E i).1 (E i).2 with
    | .ok ws =>
      match encodeFramesFrom E (i + 1) n with
      | .ok su => .ok (some i :: su.1, ws ++ su.2)
      | .fatal => .fatal
      | .stuck => .stuck
    | .fatal => .fatal
    | .stuck => .stuck

/-- Main of video_encode.cpp at the pump granularity (lines 141-170): the
25 frame submissions, then the single flush call `encode(c, NULL, pkt, f)`
recorded as submission `none`, then the fwrite of the fixed trailer.
Returns (submissions, file write events). -/
def encodeMain (E : Nat → Int × List RecvP) :
    MainRes (List (Option Nat) × List (List Nat)) :=
  match encodeFramesFrom E 0 25 with
  | .ok su =>
    match encode (E 25).1 (E 25).2 with
    | .ok ws2 => .ok (su.1 ++ [none], su.2 ++ ws2 ++ [endcode])
    | .fatal => .fatal
    | .stuck => .stuck
  | .fatal => .fatal
  | .stuck => .stuck

end VideoEncode

namespace HWDecode

/-- Fields of an AVFrame used by `decode_write` (video_hw_decode.cpp):
pixel format tag, logical dimensions, per-plane byte data (plane index and
byte offset within the plane's strided storage), per-plane stride. -/
structure HWFrame where
  format : Int
  width : Nat
  height : Nat
  data : Nat → Nat → Nat
  linesize : Nat → Nat

/-- Abstract pixel-format descriptor: for logical dimensions w, h it gives
each plane's packed row width and row count (e.g. a 4:2:0 format halves
both in the chroma planes). -/
structure PixFmtDesc where
  planeDims : Nat → Nat → List (Nat × Nat)

/-- Packed copy of one plane: `ph` rows, each taking the first `pw` bytes
of the strided source row that starts at `y * ls`. -/
def copyPlane (src : Nat → Nat) (ls pw : Nat) : Nat → List Nat
  | 0 => []
  | ph + 1 => copyPlane src ls pw ph ++ (List.range pw).map fun x => src (ph * ls + x)

/-- Packed copy of the planes listed in `pds`, numbering them from `p`. -/
def copyPlanes (data : Nat → Nat → Nat) (linesize : Nat → Nat) :
    Nat → List (Nat × Nat) → List Nat
  | _, [] => []
  | p, pd :: pds =>
    copyPlane (data p) (linesize p) pd.1 pd.2 ++ copyPlanes data linesize (p + 1) pds

/-- Modelled from the spec: av_image_get_buffer_size with alignment 1, an
external library routine (not part of src/) — the minimal packed buffer
size implied purely by the pixel format and the logical width and height;
it takes no stride input at all. -/
def av_image_get_buffer_size (d : PixFmtDesc) (w h : Nat) : Nat :=
  ((d.planeDims w h).map fun pd => pd.1 * pd.2).sum

/-- Modelled from the spec: av_image_copy_to_buffer with alignment 1, an
external library routine (not part of src/) — copies each plane row by row
from the strided source into a contiguous packed buffer, dropping the
stride padding. -/
def av_image_copy_to_buffer (d : PixFmtDesc) (w h : Nat)
    (data : Nat → Nat → Nat) (linesize : Nat → Nat) : List Nat :=
  copyPlanes data linesize 0 (d.planeDims w h)

/-- Byte offset at which plane `p` starts inside the packed buffer: the
summed packed sizes of the planes before it. -/
def planeOffset (d : PixFmtDesc) (w h p : Nat) : Nat :=
  (((d.planeDims w h).take p).map fun pd => pd.1 * pd.2).sum

/-- Hardware-surface resolution step of `decode_write` (video_hw_decode.cpp
lines 85-93): when the received frame's format equals the negotiated
hardware format, av_hwframe_transfer_data copies it into the freshly
allocated host frame sw_frame and tmp_frame becomes that host frame
(`transfer` models the call, returning the filled host frame or the
negative error code); otherwise tmp_frame is the received frame itself. -/
def resolveFrame (hw_pix_fmt : Int) (transfer : HWFrame → Except Int HWFrame)
    (f : HWFrame) : Except Int HWFrame :=
  if f.format = hw_pix_fmt then
    match transfer f with
    | .ok sw => .ok sw
    | .error e => .error e
  else .ok f

/-- Outcome of `decode_write`: the returned int together with the buffers
written to the output file in order, or a receive trace that ended while
the loop still demanded another result.  Allocation of frames and of the
packed buffer is modelled as succeeding (their ENOMEM branches are the
only paths not representable in the trace). -/
inductive DWOut where
  | ret (r : Int) (writes : List (List Nat))
  | stuck
deriving DecidableEq

/-- Receive loop of `decode_write` (video_hw_decode.cpp lines 65-130):
receive until EAGAIN or EOF (return 0), any other negative receive result
is returned as-is; each received frame is resolved against the hardware
format (a failed transfer returns its negative code, abandoning the
retrieval), the packed buffer is rebuilt with alignment 1 from the
resolved frame's format and logical dimensions, and written out. -/
def decode_write_loop (hw_pix_fmt : Int) (transfer : HWFrame → Except Int HWFrame)
    (descOf : Int → PixFmtDesc) : List (HWFrame ⊕ Int) → DWOut
  | [] => .stuck
  | .inr e :: _ =>
    if e = AVERROR_EAGAIN ∨ e = AVERROR_EOF then .ret 0 []
    else if e < 0 then .ret e []
    else .stuck
  | .inl f :: rest =>
    match resolveFrame hw_pix_fmt transfer f with
    | .error e => .ret e []
    | .ok tmp =>
      match decode_write_loop hw_pix_fmt transfer descOf rest with
      | .ret r ws =>
          .ret r (av_image_copy_to_buffer (descOf tmp.format) tmp.width tmp.height
                    tmp.data tmp.linesize :: ws)
      | .stuck => .stuck

/-- The `decode_write` helper (video_hw_decode.cpp lines 51-131): send the
packet (a failed send prints and returns the negative code), then run the
receive loop. -/
def decode_write (hw_pix_fmt : Int) (transfer : HWFrame → Except Int HWFrame)
    (descOf : Int → PixFmtDesc) (sendRet : Int)
    (tr : List (HWFrame ⊕ Int)) : DWOut :=
  if sendRet < 0 then .ret sendRet [] else decode_write_loop hw_pix_fmt transfer descOf tr

/-- A demuxed packet as read by av_read_frame: its container stream index
and an identifying payload. -/
structure HWPkt where
  stream_index : Int
  payload : Nat
deriving DecidableEq

/-- Read loop of main (video_hw_decode.cpp lines 228-236): read packets
until av_read_frame fails (end of the list); a packet is submitted to
`decode_write` only when `video_stream == packet.stream_index`, and every
read packet is released with av_packet_unref; a negative `decode_write`
result ends the loop through its `ret >= 0` condition (after the unref).
`R` gives the `decode_write` return value of the k-th submission.  Returns
(submitted packets, released packets), each in order. -/
def hwMainLoop (video_stream : Int) (R : Nat → Int) :
    Nat → List HWPkt → List HWPkt × List HWPkt
  | _, [] => ([], [])
  | k, p :: rest =>
    if video_stream = p.stream_index then
      if R k < 0 then ([p], [p])
      else
        let su := hwMainLoop video_stream R (k + 1) rest
        (p :: su.1, p :: su.2)
    else
      let su := hwMainLoop video_stream R k rest
      (su.1, p :: su.2)

/-- Main of video_hw_decode.cpp at the pump granularity (lines 228-242):
the read loop's submissions (each a real packet, recorded `some`), then
the single flush submission with packet.data = NULL and packet.size = 0
(lines 238-241), recorded as `none`.  Also returns the released packets. -/
def hwMain (video_stream : Int) (R : Nat → Int) (pkts : List HWPkt) :
    List (Option HWPkt) × List HWPkt :=
  ((hwMainLoop video_stream R 0 pkts).1.map some ++ [none],
   (hwMainLoop video_stream R 0 pkts).2)

end HWDecode

namespace VideoDecode

end VideoDecode

namespace VideoEncode

end VideoEncode

namespace HWDecode

end HWDecode

namespace VideoDecode

end VideoDecode

namespace VideoEncode

end VideoEncode

namespace HWDecode

end HWDecode

/-! Helper lemmas. -/

open VideoDecode VideoEncode HWDecode

theorem savedArts_length (filename : String) (fn : Nat) (fs : List DecFrame) :
    (savedArts filename fn fs).length = fs.length := by
  induction fs generalizing fn with
  | nil => rfl
  | cons f fs ih => simp [savedArts, ih]

theorem decodeDrain_map_frame (filename : String) (fs : List DecFrame)
    (t : List RecvF) (fn : Nat) :
    decodeDrain filename fn (fs.map RecvF.frame ++ t) =
      match decodeDrain filename (fn + fs.length) t with
      | .ok fn2 arts => .ok fn2 (savedArts filename fn fs ++ arts)
      | .fatal => .fatal
      | .stuck => .stuck := by
  induction fs generalizing fn with
  | nil =>
    simp only [List.map_nil, List.nil_append, List.length_nil, Nat.add_zero]
    cases decodeDrain filename fn t <;> simp [savedArts]
  | cons f fs ih =>
    simp only [List.map_cons, List.cons_append, List.length_cons, decodeDrain,
      List.append_eq]
    rw [ih (fn + 1)]
    have hadd : fn + 1 + fs.length = fn + (fs.length + 1) := by omega
    rw [hadd]
    cases decodeDrain filename (fn + (fs.length + 1)) t <;> simp [savedArts]

theorem encodeDrain_map_pkt (ds : List (List Nat)) (t : List RecvP) :
    encodeDrain (ds.map RecvP.pkt ++ t) =
      match encodeDrain t with
      | .ok ws => .ok (ds ++ ws)
      | .fatal => .fatal
      | .stuck => .stuck := by
  induction ds with
  | nil =>
    simp only [List.map_nil, List.nil_append]
    cases encodeDrain t <;> simp
  | cons d ds ih =>
    simp only [List.map_cons, List.cons_append, encodeDrain, List.append_eq]
    rw [ih]
    cases encodeDrain t <;> simp

theorem decodeDrain_code (filename : String) (fn : Nat) (e : Int) (rest : List RecvF) :
    decodeDrain filename fn (RecvF.code e :: rest) =
      if e = AVERROR_EAGAIN ∨ e = AVERROR_EOF then .ok fn []
      else if e < 0 then .fatal
      else .stuck := rfl

theorem encodeDrain_code (e : Int) (rest : List RecvP) :
    encodeDrain (RecvP.code e :: rest) =
      if e = AVERROR_EAGAIN ∨ e = AVERROR_EOF then .ok []
      else if e < 0 then .fatal
      else .stuck := rfl

/-- C1: in both drain loops (the decode pump of video_decode.cpp and the
encode pump of video_encode.cpp), a receive result equal to
AVERROR(EAGAIN) (Starved) or AVERROR_EOF (Exhausted) stops draining and
returns control to the caller as a normal (non-error) return carrying the
outputs produced so far, while any other negative receive result leads to
exit(1); the Starved signal never surfaces to the caller as an error. -/
theorem drain_starved_exhausted_policy
    (filename : String) (fn : Nat) (fs : List DecFrame) (rest : List RecvF)
    (ds : List (List Nat)) (restP : List RecvP)
    (e : Int) (he : e < 0) (h1 : e ≠ AVERROR_EAGAIN) (h2 : e ≠ AVERROR_EOF) :
    (decodeDrain filename fn (fs.map RecvF.frame ++ RecvF.code AVERROR_EAGAIN :: rest)
        = .ok (fn + fs.length) (savedArts filename fn fs))
  ∧ (decodeDrain filename fn (fs.map RecvF.frame ++ RecvF.code AVERROR_EOF :: rest)
        = .ok (fn + fs.length) (savedArts filename fn fs))
  ∧ (decodeDrain filename fn (fs.map RecvF.frame ++ RecvF.code e :: rest) = .fatal)
  ∧ (encodeDrain (ds.map RecvP.pkt ++ RecvP.code AVERROR_EAGAIN :: restP) = .ok ds)
  ∧ (encodeDrain (ds.map RecvP.pkt ++ RecvP.code AVERROR_EOF :: restP) = .ok ds)
  ∧ (encodeDrain (ds.map RecvP.pkt ++ RecvP.code e :: restP) = .fatal) := by
  refine ⟨?_, ?_, ?_, ?_, ?_, ?_⟩
  · rw [decodeDrain_map_frame, decodeDrain_code]; simp
  · rw [decodeDrain_map_frame, decodeDrain_code]; simp
  · rw [decodeDrain_map_frame, decodeDrain_code]
    simp [h1, h2, he]
  · rw [encodeDrain_map_pkt, encodeDrain_code]; simp
  · rw [encodeDrain_map_pkt, encodeDrain_code]; simp
  · rw [encodeDrain_map_pkt, encodeDrain_code]
    simp [h1, h2, he]

/-- Witness for C1 at concrete inputs. -/
theorem drain_starved_exhausted_policy_witness :
    ((-1 : Int) < 0 ∧ (-1 : Int) ≠ AVERROR_EAGAIN ∧ (-1 : Int) ≠ AVERROR_EOF)
  ∧ ((decodeDrain "out" 0 [RecvF.code AVERROR_EAGAIN] = .ok 0 [])
      ∧ (decodeDrain "out" 0 [RecvF.code AVERROR_EOF] = .ok 0 [])
      ∧ (decodeDrain "out" 0 [RecvF.code (-1)] = .fatal)
      ∧ (encodeDrain [RecvP.code AVERROR_EAGAIN] = .ok [])
      ∧ (encodeDrain [RecvP.code AVERROR_EOF] = .ok [])
      ∧ (encodeDrain [RecvP.code (-1)] = .fatal)) :=
  ⟨⟨by decide, by decide, by decide⟩,
   drain_starved_exhausted_policy "out" 0 [] [] [] [] (-1)
     (by decide) (by decide) (by decide)⟩

theorem optList_concat_none {α : Type} [DecidableEq α] (l : List (Option α))
    (h : ∀ x ∈ l, x ≠ none) :
    (l ++ [none]).count none = 1 ∧ (l ++ [none]).getLast? = some none := by
  constructor
  · rw [List.count_append]
    have h0 : l.count none = 0 := by
      rw [List.count_eq_zero]
      intro hmem
      exact (h none hmem) rfl
    simp [h0]
  · simp [List.getLast?_concat]

theorem encodeFramesFrom_subs_some (E : Nat → Int × List RecvP) (n : Nat) :
    ∀ i su, encodeFramesFrom E i n = .ok su → ∀ x ∈ su.1, x ≠ none := by
  induction n with
  | zero =>
    intro i su h
    simp only [encodeFramesFrom] at h
    cases h
    simp
  | succ n ih =>
    intro i su h
    simp only [encodeFramesFrom] at h
    cases he : encode (E i).1 (E i).2 <;> rw [he] at h
    case fatal => simp at h
    case stuck => simp at h
    case ok ws =>
      cases hr : encodeFramesFrom E (i + 1) n <;> rw [hr] at h
      case fatal => simp at h
      case stuck => simp at h
      case ok su' =>
        cases h
        intro x hx
        rcases List.mem_cons.mp hx with hx | hx
        · subst hx; simp
        · exact ih (i + 1) su' hr x hx

theorem decode_write_loop_resolved_front (hwfmt : Int)
    (transfer : HWFrame → Except Int HWFrame) (descOf : Int → PixFmtDesc)
    (pre : List HWFrame) (tr : List (HWFrame ⊕ Int))
    (hpre : ∀ g ∈ pre, ∃ t, resolveFrame hwfmt transfer g = .ok t) :
    (decode_write_loop hwfmt transfer descOf tr = .stuck →
       decode_write_loop hwfmt transfer descOf (pre.map Sum.inl ++ tr) = .stuck)
  ∧ ∀ r ws, decode_write_loop hwfmt transfer descOf tr = .ret r ws →
      ∃ pws, pws.length = pre.length ∧
        decode_write_loop hwfmt transfer descOf (pre.map Sum.inl ++ tr)
          = .ret r (pws ++ ws) := by
  induction pre with
  | nil =>
    constructor
    · intro h; simpa using h
    · intro r ws h; exact ⟨[], rfl, by simpa using h⟩
  | cons g pre ih =>
    obtain ⟨t, ht⟩ := hpre g (by simp)
    have ih' := ih (fun g' hg' => hpre g' (by simp [hg']))
    constructor
    · intro h
      simp only [List.map_cons, List.cons_append, decode_write_loop, ht,
        List.append_eq]
      rw [ih'.1 h]
    · intro r ws h
      obtain ⟨pws, hlen, heq⟩ := ih'.2 r ws h
      refine ⟨av_image_copy_to_buffer (descOf t.format) t.width t.height
                t.data t.linesize :: pws, by simp [hlen], ?_⟩
      simp only [List.map_cons, List.cons_append, decode_write_loop, ht,
        List.append_eq, heq]

/-- C2: on each of the three paths, after the input is exhausted exactly
one flush submission carrying no payload is made (recorded `none`: the
NULL packet of video_decode.cpp line 172 and video_hw_decode.cpp lines
238-241, the NULL frame of video_encode.cpp line 166), it is the last
submission, every earlier decode-path submission carries a nonzero-sized
packet; and a flush drain whose engine trace ends in Exhausted emits every
internally buffered output before stopping. -/
theorem flush_once_then_drain_exhausted
    (O : Nat → Nat → Int × Nat) (fuel : Nat) (chunks : List Nat)
    (subs : List (Option Nat)) (hdec : decodeMainSubs O fuel chunks = .ok subs)
    (E : Nat → Int × List RecvP) (esubs : List (Option Nat)) (ews : List (List Nat))
    (henc : encodeMain E = .ok (esubs, ews))
    (vs : Int) (R : Nat → Int) (pkts : List HWPkt)
    (filename : String) (fn : Nat) (fs : List DecFrame)
    (ds : List (List Nat))
    (hwfmt : Int) (transfer : HWFrame → Except Int HWFrame)
    (descOf : Int → PixFmtDesc) (hfs : List HWFrame)
    (hres : ∀ g ∈ hfs, ∃ t, resolveFrame hwfmt transfer g = .ok t) :
    (subs.count none = 1 ∧ subs.getLast? = some none
       ∧ ∀ x ∈ subs, x = none ∨ ∃ n, x = some n ∧ n ≠ 0)
  ∧ (esubs.count none = 1 ∧ esubs.getLast? = some none)
  ∧ ((hwMain vs R pkts).1.count none = 1 ∧ (hwMain vs R pkts).1.getLast? = some none)
  ∧ (decodeDrain filename fn (fs.map RecvF.frame ++ [RecvF.code AVERROR_EOF])
       = .ok (fn + fs.length) (savedArts filename fn fs))
  ∧ (encodeDrain (ds.map RecvP.pkt ++ [RecvP.code AVERROR_EOF]) = .ok ds)
  ∧ (∃ pws, pws.length = hfs.length ∧
       decode_write_loop hwfmt transfer descOf (hfs.map Sum.inl ++ [Sum.inr AVERROR_EOF])
         = .ret 0 pws) := by
  refine ⟨?_, ?_, ?_, ?_, ?_, ?_⟩
  · simp only [decodeMainSubs] at hdec
    cases hc : chunksLoop O fuel 0 chunks <;> rw [hc] at hdec
    case fatal => simp at hdec
    case stuck => simp at hdec
    case ok recs =>
      cases hdec
      have hne : ∀ x ∈ (recs.filterMap fun r =>
          if r.2.2 ≠ 0 then some (some r.2.2) else none), x ≠ none := by
        intro x hx
        obtain ⟨r, _, hr⟩ := List.mem_filterMap.mp hx
        by_cases h0 : r.2.2 ≠ 0 <;> simp [h0] at hr
        subst hr; simp
      obtain ⟨h1, h2⟩ := optList_concat_none _ hne
      refine ⟨h1, h2, ?_⟩
      intro x hx
      rcases List.mem_append.mp hx with hx | hx
      · obtain ⟨r, _, hr⟩ := List.mem_filterMap.mp hx
        by_cases h0 : r.2.2 ≠ 0 <;> simp [h0] at hr
        subst hr; exact Or.inr ⟨r.2.2, rfl, h0⟩
      · simp at hx; subst hx; exact Or.inl rfl
  · simp only [encodeMain] at henc
    cases hf : encodeFramesFrom E 0 25 <;> rw [hf] at henc
    case fatal => simp at henc
    case stuck => simp at henc
    case ok su =>
      cases he : encode (E 25).1 (E 25).2 <;> rw [he] at henc
      case fatal => simp at henc
      case stuck => simp at henc
      case ok ws2 =>
        have hinj := henc
        simp only [MainRes.ok.injEq, Prod.mk.injEq] at hinj
        obtain ⟨hsub, _⟩ := hinj
        subst hsub
        exact optList_concat_none _ (encodeFramesFrom_subs_some E 25 0 su hf)
  · have hne : ∀ x ∈ (hwMainLoop vs R 0 pkts).1.map some, x ≠ none := by
      intro x hx
      obtain ⟨p, _, hp⟩ := List.mem_map.mp hx
      subst hp; simp
    exact optList_concat_none _ hne
  · rw [decodeDrain_map_frame, decodeDrain_code]; simp
  · rw [encodeDrain_map_pkt, encodeDrain_code]; simp
  · have hbase : decode_write_loop hwfmt transfer descOf [Sum.inr AVERROR_EOF]
        = .ret 0 [] := by simp [decode_write_loop]
    obtain ⟨pws, hlen, heq⟩ :=
      (decode_write_loop_resolved_front hwfmt transfer descOf hfs
        [Sum.inr AVERROR_EOF] hres).2 0 [] hbase
    exact ⟨pws, hlen, by simpa using heq⟩

/-- Witness for C2 at concrete inputs. -/
theorem flush_once_then_drain_exhausted_witness :
    (decodeMainSubs (fun _ d => ((d : Int), 1)) 2 [3] = .ok [some 1, none])
  ∧ (encodeMain (fun _ => (0, [RecvP.code AVERROR_EAGAIN]))
       = .ok ((List.range 25).map some ++ [none], [endcode]))
  ∧ (([some 1, none] : List (Option Nat)).count none = 1
      ∧ ([some 1, none] : List (Option Nat)).getLast? = some none
      ∧ ∀ x ∈ ([some 1, none] : List (Option Nat)),
          x = none ∨ ∃ n, x = some n ∧ n ≠ 0)
  ∧ (((List.range 25).map some ++ [none]).count none = 1
      ∧ ((List.range 25).map some ++ [(none : Option Nat)]).getLast? = some none)
  ∧ ((hwMain 0 (fun _ => 0) [⟨0, 0⟩]).1.count none = 1
      ∧ (hwMain 0 (fun _ => 0) [⟨0, 0⟩]).1.getLast? = some none)
  ∧ (decodeDrain "out" 0 [RecvF.code AVERROR_EOF] = .ok 0 [])
  ∧ (encodeDrain [RecvP.code AVERROR_EOF] = .ok [])
  ∧ (∃ pws, pws.length = 0 ∧
       decode_write_loop 0 (fun f => .ok f) (fun _ => ⟨fun _ _ => []⟩)
         [Sum.inr AVERROR_EOF] = .ret 0 pws) := by
  have h := flush_once_then_drain_exhausted
    (fun _ d => ((d : Int), 1)) 2 [3] [some 1, none] (by decide)
    (fun _ => (0, [RecvP.code AVERROR_EAGAIN]))
    ((List.range 25).map some ++ [none]) [endcode] (by decide)
    0 (fun _ => 0) [⟨0, 0⟩] "out" 0 [] [] 0 (fun f => .ok f)
    (fun _ => ⟨fun _ _ => []⟩) [] (by simp)
  exact ⟨by decide, by decide, h.1, h.2.1, h.2.2.1, h.2.2.2.1,
    h.2.2.2.2.1, h.2.2.2.2.2⟩

theorem parseLoop_chain (O : Nat → Nat → Int × Nat)
    (hO : ∀ k d, 0 ≤ (O k d).1 → (O k d).1.toNat ≤ d) :
    ∀ fuel k offset dsize recs,
      parseLoop O k fuel offset dsize = .ok recs → chain offset dsize recs := by
  intro fuel
  induction fuel with
  | zero => intro k o d recs h; simp [parseLoop] at h
  | succ fuel ih =>
    intro k o d recs h
    simp only [parseLoop] at h
    by_cases hd : d = 0
    · rw [if_pos hd] at h
      cases h
      subst hd
      simp [chain]
    · rw [if_neg hd] at h
      by_cases hneg : (O k d).1 < 0
      · rw [if_pos hneg] at h; simp at h
      · rw [if_neg hneg] at h
        cases hrec : parseLoop O (k + 1) fuel (o + (O k d).1.toNat)
            (d - (O k d).1.toNat) with
        | ok recs' =>
          rw [hrec] at h
          cases h
          exact ⟨rfl, hO k d (le_of_not_lt hneg), ih _ _ _ _ hrec⟩
        | fatal => rw [hrec] at h; simp at h
        | stuck => rw [hrec] at h; simp at h

theorem chain_sum :
    ∀ (l : List (Nat × Nat × Nat)) (o d : Nat), chain o d l →
      (l.map fun r => r.2.1).sum = d := by
  intro l
  induction l with
  | nil => intro o d h; simpa [chain] using h.symm
  | cons r l ih =>
    intro o d h
    obtain ⟨h1, h2, h3⟩ := h
    have := ih (o + r.2.1) (d - r.2.1) h3
    simp only [List.map_cons, List.sum_cons, this]
    omega

theorem chain_offsets :
    ∀ (l : List (Nat × Nat × Nat)) (o d : Nat), chain o d l →
      ∀ i : Fin l.length,
        (l.get i).1 = o + ((l.take i.val).map fun r => r.2.1).sum := by
  intro l
  induction l with
  | nil => intro o d _ i; exact absurd i.isLt (by simp)
  | cons r l ih =>
    intro o d h i
    obtain ⟨h1, h2, h3⟩ := h
    rcases i with ⟨i, hi⟩
    cases i with
    | zero => simpa using h1
    | succ j =>
      have hj : j < l.length := by simpa using hi
      have := ih (o + r.2.1) (d - r.2.1) h3 ⟨j, hj⟩
      simp only [List.get_cons_succ, this, List.take_succ_cons, List.map_cons,
        List.sum_cons]
      omega

theorem chain_lb :
    ∀ (l : List (Nat × Nat × Nat)) (o d : Nat), chain o d l →
      ∀ r ∈ l, o ≤ r.1 := by
  intro l
  induction l with
  | nil => intro o d _ r hr; simp at hr
  | cons a l ih =>
    intro o d h r hr
    obtain ⟨h1, h2, h3⟩ := h
    rcases List.mem_cons.mp hr with hr | hr
    · subst hr; omega
    · have := ih (o + a.2.1) (d - a.2.1) h3 r hr
      omega

theorem chain_cover :
    ∀ (l : List (Nat × Nat × Nat)) (o d : Nat), chain o d l →
      ∀ n, o ≤ n → n < o + d →
        ∃ i : Fin l.length,
          (l.get i).1 ≤ n ∧ n < (l.get i).1 + (l.get i).2.1 := by
  intro l
  induction l with
  | nil =>
    intro o d h n h1 h2
    have : d = 0 := h
    omega
  | cons r l ih =>
    intro o d h n hn1 hn2
    obtain ⟨h1, h2, h3⟩ := h
    by_cases hn : n < o + r.2.1
    · refine ⟨⟨0, by simp⟩, ?_, ?_⟩ <;> simp [h1] <;> omega
    · have hge : o + r.2.1 ≤ n := by omega
      have hlt : n < (o + r.2.1) + (d - r.2.1) := by omega
      obtain ⟨⟨j, hj⟩, hj1, hj2⟩ := ih (o + r.2.1) (d - r.2.1) h3 n hge hlt
      refine ⟨⟨j + 1, by simpa using hj⟩, ?_, ?_⟩
      · simpa [List.get_cons_succ] using hj1
      · simpa [List.get_cons_succ] using hj2

theorem chain_disjoint :
    ∀ (l : List (Nat × Nat × Nat)) (o d : Nat), chain o d l →
      ∀ (i j : Nat) (hi : i < l.length) (hj : j < l.length) (n : Nat),
        (l.get ⟨i, hi⟩).1 ≤ n → n < (l.get ⟨i, hi⟩).1 + (l.get ⟨i, hi⟩).2.1 →
        (l.get ⟨j, hj⟩).1 ≤ n → n < (l.get ⟨j, hj⟩).1 + (l.get ⟨j, hj⟩).2.1 →
        i = j := by
  intro l
  induction l with
  | nil => intro o d _ i j hi; simp at hi
  | cons r l ih =>
    intro o d h i j hi hj n hi1 hi2 hj1 hj2
    obtain ⟨h1, h2, h3⟩ := h
    cases i with
    | zero =>
      cases j with
      | zero => rfl
      | succ j' =>
        have hj' : j' < l.length := by simpa using hj
        have hmem : l.get ⟨j', hj'⟩ ∈ l := List.get_mem l j' hj'
        have hlb := chain_lb l (o + r.2.1) (d - r.2.1) h3 _ hmem
        rw [List.get_cons_succ] at hj1
        have e0 : (r :: l).get ⟨0, hi⟩ = r := rfl
        rw [e0] at hi1 hi2
        omega
    | succ i' =>
      cases j with
      | zero =>
        have hi' : i' < l.length := by simpa using hi
        have hmem : l.get ⟨i', hi'⟩ ∈ l := List.get_mem l i' hi'
        have hlb := chain_lb l (o + r.2.1) (d - r.2.1) h3 _ hmem
        rw [List.get_cons_succ] at hi1
        have e0 : (r :: l).get ⟨0, hj⟩ = r := rfl
        rw [e0] at hj1 hj2
        omega
      | succ j' =>
        have hi' : i' < l.length := by simpa using hi
        have hj' : j' < l.length := by simpa using hj
        simp only [List.get_cons_succ] at hi1 hi2 hj1 hj2
        have := ih (o + r.2.1) (d - r.2.1) h3 i' j' hi' hj' n hi1 hi2 hj1 hj2
        omega

/-- C3: the inner parse loop advances the input cursor by exactly the
consumed length returned by each av_parser_parse2 call until the whole
chunk is consumed: the consumed lengths sum to the chunk size, each call's
cursor offset equals the total consumed by the previous calls, and the
consumption intervals tile the chunk — every byte of the chunk is consumed
by exactly one call, none twice, none skipped (an incomplete packet tail
is retained inside the parser state, never re-consumed from the chunk). -/
theorem parse_cursor_tiles (O : Nat → Nat → Int × Nat) (k fuel csz : Nat)
    (recs : List (Nat × Nat × Nat))
    (hO : ∀ k d, 0 ≤ (O k d).1 → (O k d).1.toNat ≤ d)
    (hrun : parseLoop O k fuel 0 csz = .ok recs) :
    ((recs.map fun r => r.2.1).sum = csz)
  ∧ (∀ i : Fin recs.length,
       (recs.get i).1 = ((recs.take i.val).map fun r => r.2.1).sum)
  ∧ (∀ n, n < csz → ∃ i : Fin recs.length,
       (recs.get i).1 ≤ n ∧ n < (recs.get i).1 + (recs.get i).2.1)
  ∧ (∀ i j : Fin recs.length, ∀ n : Nat,
       (recs.get i).1 ≤ n → n < (recs.get i).1 + (recs.get i).2.1 →
       (recs.get j).1 ≤ n → n < (recs.get j).1 + (recs.get j).2.1 → i = j) := by
  have hch := parseLoop_chain O hO fuel k 0 csz recs hrun
  refine ⟨chain_sum recs 0 csz hch, ?_, ?_, ?_⟩
  · intro i
    have := chain_offsets recs 0 csz hch i
    simpa using this
  · intro n hn
    exact chain_cover recs 0 csz hch n (Nat.zero_le n) (by omega)
  · intro i j n h1 h2 h3 h4
    exact Fin.ext (chain_disjoint recs 0 csz hch i.val j.val i.isLt j.isLt n h1 h2 h3 h4)

/-- Witness for C3 at concrete inputs: a parser that consumes the whole
remainder on its first call. -/
theorem parse_cursor_tiles_witness :
    (parseLoop (fun _ d => ((d : Int), 1)) 0 2 0 3 = .ok [(0, 3, 1)])
  ∧ (([(0, 3, 1)].map fun r => r.2.1).sum = 3
      ∧ (∀ i : Fin ([(0, 3, 1)] : List (Nat × Nat × Nat)).length,
           (([(0, 3, 1)] : List (Nat × Nat × Nat)).get i).1
             = ((([(0, 3, 1)] : List (Nat × Nat × Nat)).take i.val).map
                 fun r => r.2.1).sum)
      ∧ (∀ n, n < 3 → ∃ i : Fin ([(0, 3, 1)] : List (Nat × Nat × Nat)).length,
           (([(0, 3, 1)] : List (Nat × Nat × Nat)).get i).1 ≤ n
             ∧ n < (([(0, 3, 1)] : List (Nat × Nat × Nat)).get i).1
                 + (([(0, 3, 1)] : List (Nat × Nat × Nat)).get i).2.1)
      ∧ (∀ i j : Fin ([(0, 3, 1)] : List (Nat × Nat × Nat)).length, ∀ n : Nat,
           (([(0, 3, 1)] : List (Nat × Nat × Nat)).get i).1 ≤ n →
           n < (([(0, 3, 1)] : List (Nat × Nat × Nat)).get i).1
               + (([(0, 3, 1)] : List (Nat × Nat × Nat)).get i).2.1 →
           (([(0, 3, 1)] : List (Nat × Nat × Nat)).get j).1 ≤ n →
           n < (([(0, 3, 1)] : List (Nat × Nat × Nat)).get j).1
               + (([(0, 3, 1)] : List (Nat × Nat × Nat)).get j).2.1 → i = j)) :=
  ⟨by decide,
   parse_cursor_tiles (fun _ d => ((d : Int), 1)) 0 2 3 [(0, 3, 1)]
     (by intro k d h; simp) (by decide)⟩

theorem freadChunk_get_high (b' c : List Nat) (i : Nat) (hi : c.length ≤ i) :
    (freadChunk b' c)[i]? = b'[i]? := by
  unfold freadChunk
  rw [List.getElem?_append_right hi, List.getElem?_drop]
  congr 1
  omega

theorem memsetPad_padding (b : List Nat) (hb : INBUF_SIZE ≤ b.length) (i : Nat)
    (h1 : INBUF_SIZE ≤ i) (h2 : i < INBUF_SIZE + AV_INPUT_BUFFER_PADDING_SIZE) :
    (memsetPad b)[i]? = some 0 := by
  unfold memsetPad
  have hlen : (b.take INBUF_SIZE).length = INBUF_SIZE := by
    simp [List.length_take]
    omega
  rw [List.getElem?_append_right (by rw [hlen]; omega), hlen,
    List.getElem?_replicate, if_pos (by omega)]

theorem padding_preserved_fold (cs : List (List Nat)) :
    ∀ b0 : List Nat,
      (∀ i, INBUF_SIZE ≤ i → i < INBUF_SIZE + AV_INPUT_BUFFER_PADDING_SIZE →
        b0[i]? = some 0) →
      (∀ c ∈ cs, c.length ≤ INBUF_SIZE) →
      ∀ i, INBUF_SIZE ≤ i → i < INBUF_SIZE + AV_INPUT_BUFFER_PADDING_SIZE →
        (cs.foldl freadChunk b0)[i]? = some 0 := by
  induction cs with
  | nil => intro b0 h _ i h1 h2; exact h i h1 h2
  | cons c cs ih =>
    intro b0 h hc i h1 h2
    simp only [List.foldl_cons]
    refine ih (freadChunk b0 c) ?_ (fun c' hc' => hc c' (by simp [hc'])) i h1 h2
    intro j hj1 hj2
    rw [freadChunk_get_high b0 c j (le_trans (hc c (by simp)) hj1)]
    exact h j hj1 hj2

/-- C4: the in-memory input buffer is over-allocated by the fixed padding
AV_INPUT_BUFFER_PADDING_SIZE beyond the INBUF_SIZE chunk area; the one-time
memset zeroes the padding before any parsing; every fread stores at most
INBUF_SIZE bytes at the start of the buffer and leaves all higher indices
untouched, so the padding stays zero at every parse of the run; and the
logical data size handed to the parser (the fread return value) never
reaches into the padding region. -/
theorem inbuf_padding_zero
    (b : List Nat) (hb : b.length = INBUF_SIZE + AV_INPUT_BUFFER_PADDING_SIZE)
    (chunks : List (List Nat)) (hc : ∀ c ∈ chunks, c.length ≤ INBUF_SIZE) :
    ((memsetPad b).length = INBUF_SIZE + AV_INPUT_BUFFER_PADDING_SIZE)
  ∧ (∀ i, INBUF_SIZE ≤ i → i < INBUF_SIZE + AV_INPUT_BUFFER_PADDING_SIZE →
       (memsetPad b)[i]? = some 0)
  ∧ (∀ (b' c : List Nat) (i : Nat), c.length ≤ i → (freadChunk b' c)[i]? = b'[i]?)
  ∧ (∀ pfx sfx, chunks = pfx ++ sfx →
       ∀ i, INBUF_SIZE ≤ i → i < INBUF_SIZE + AV_INPUT_BUFFER_PADDING_SIZE →
         (pfx.foldl freadChunk (memsetPad b))[i]? = some 0)
  ∧ (∀ c ∈ chunks, ∀ j, j < c.length → j < INBUF_SIZE) := by
  refine ⟨?_, ?_, ?_, ?_, ?_⟩
  · unfold memsetPad
    simp [List.length_take]
    omega
  · exact fun i h1 h2 => memsetPad_padding b (by omega) i h1 h2
  · exact fun b' c i hi => freadChunk_get_high b' c i hi
  · intro pfx sfx heq i h1 h2
    refine padding_preserved_fold pfx (memsetPad b) ?_ ?_ i h1 h2
    · exact fun j hj1 hj2 => memsetPad_padding b (by omega) j hj1 hj2
    · intro c hcm
      exact hc c (by rw [heq]; exact List.mem_append_left sfx hcm)
  · intro c hcm j hj
    have := hc c hcm
    omega

/-- Witness for C4 at concrete inputs. -/
theorem inbuf_padding_zero_witness :
    ((List.replicate (INBUF_SIZE + AV_INPUT_BUFFER_PADDING_SIZE) 7).length
        = INBUF_SIZE + AV_INPUT_BUFFER_PADDING_SIZE)
  ∧ (∀ c ∈ [[1, 2, 3]], c.length ≤ INBUF_SIZE)
  ∧ (((memsetPad (List.replicate (INBUF_SIZE + AV_INPUT_BUFFER_PADDING_SIZE) 7)).length
        = INBUF_SIZE + AV_INPUT_BUFFER_PADDING_SIZE)
      ∧ (∀ i, INBUF_SIZE ≤ i → i < INBUF_SIZE + AV_INPUT_BUFFER_PADDING_SIZE →
           (memsetPad (List.replicate (INBUF_SIZE + AV_INPUT_BUFFER_PADDING_SIZE) 7))[i]?
             = some 0)
      ∧ (∀ (b' c : List Nat) (i : Nat), c.length ≤ i →
           (freadChunk b' c)[i]? = b'[i]?)
      ∧ (∀ pfx sfx, ([[1, 2, 3]] : List (List Nat)) = pfx ++ sfx →
           ∀ i, INBUF_SIZE ≤ i → i < INBUF_SIZE + AV_INPUT_BUFFER_PADDING_SIZE →
             (pfx.foldl freadChunk
               (memsetPad (List.replicate
                 (INBUF_SIZE + AV_INPUT_BUFFER_PADDING_SIZE) 7)))[i]? = some 0)
      ∧ (∀ c ∈ [[1, 2, 3]], ∀ j, j < c.length → j < INBUF_SIZE)) := by
  have hc : ∀ c ∈ [[1, 2, 3]], List.length c ≤ INBUF_SIZE := by
    intro c h
    simp at h
    subst h
    decide
  exact ⟨by simp, hc,
    inbuf_padding_zero (List.replicate (INBUF_SIZE + AV_INPUT_BUFFER_PADDING_SIZE) 7)
      (by simp) [[1, 2, 3]] hc⟩

/-- C5: on the encode path, a successful run writes the fixed four-byte
trailer 0x00 0x00 0x01 0xB7 — the constant endcode array, not computed
from the encoded data — as the final write of the output file, after the
packet writes of the 25 frame submissions and of the flush drain. -/
theorem trailer_after_all_packets (E : Nat → Int × List RecvP)
    (subs : List (Option Nat)) (ws : List (List Nat))
    (h : encodeMain E = .ok (subs, ws)) :
    endcode = [0x00, 0x00, 0x01, 0xb7]
  ∧ ∃ su ws2, encodeFramesFrom E 0 25 = .ok su
      ∧ encode (E 25).1 (E 25).2 = .ok ws2
      ∧ ws = su.2 ++ ws2 ++ [endcode] := by
  constructor
  · rfl
  · simp only [encodeMain] at h
    cases hf : encodeFramesFrom E 0 25 <;> rw [hf] at h
    case fatal => simp at h
    case stuck => simp at h
    case ok su =>
      cases he : encode (E 25).1 (E 25).2 <;> rw [he] at h
      case fatal => simp at h
      case stuck => simp at h
      case ok ws2 =>
        simp only [MainRes.ok.injEq, Prod.mk.injEq] at h
        exact ⟨su, ws2, rfl, rfl, h.2.symm⟩

/-- Witness for C5 at concrete inputs. -/
theorem trailer_after_all_packets_witness :
    (encodeMain (fun _ => (0, [RecvP.code AVERROR_EAGAIN]))
       = .ok ((List.range 25).map some ++ [none], [endcode]))
  ∧ (endcode = [0x00, 0x00, 0x01, 0xb7]
      ∧ ∃ su ws2,
          encodeFramesFrom (fun _ => (0, [RecvP.code AVERROR_EAGAIN])) 0 25 = .ok su
        ∧ encode 0 [RecvP.code AVERROR_EAGAIN] = .ok ws2
        ∧ [endcode] = su.2 ++ ws2 ++ [endcode]) :=
  ⟨by decide,
   trailer_after_all_packets (fun _ => (0, [RecvP.code AVERROR_EAGAIN]))
     ((List.range 25).map some ++ [none]) [endcode] (by decide)⟩

/-- C6: on the hardware decode path a received frame is passed to
av_hwframe_transfer_data (into the freshly allocated host frame) exactly
when its pixel format equals the negotiated hardware format, otherwise the
frame is used as-is; and a failed transfer makes `decode_write` stop the
current retrieval, surfacing the transfer's negative return value to the
caller, with only the frames resolved before it written out. -/
theorem hw_transfer_policy
    (hw_pix_fmt : Int) (transfer : HWFrame → Except Int HWFrame)
    (descOf : Int → PixFmtDesc) (f : HWFrame)
    (pre : List HWFrame) (rest : List (HWFrame ⊕ Int)) (e : Int)
    (hpre : ∀ g ∈ pre, ∃ t, resolveFrame hw_pix_fmt transfer g = .ok t)
    (he : e < 0) (hf : f.format = hw_pix_fmt) (ht : transfer f = .error e) :
    (∀ g : HWFrame, g.format = hw_pix_fmt →
       resolveFrame hw_pix_fmt transfer g = transfer g)
  ∧ (∀ g : HWFrame, g.format ≠ hw_pix_fmt →
       resolveFrame hw_pix_fmt transfer g = .ok g)
  ∧ (resolveFrame hw_pix_fmt transfer f = .error e)
  ∧ (∃ pws, pws.length = pre.length ∧
       decode_write_loop hw_pix_fmt transfer descOf
         (pre.map Sum.inl ++ Sum.inl f :: rest) = .ret e pws) := by
  have h1 : ∀ g : HWFrame, g.format = hw_pix_fmt →
      resolveFrame hw_pix_fmt transfer g = transfer g := by
    intro g hg
    unfold resolveFrame
    rw [if_pos hg]
    cases transfer g <;> rfl
  have h3 : resolveFrame hw_pix_fmt transfer f = .error e := by
    rw [h1 f hf, ht]
  refine ⟨h1, ?_, h3, ?_⟩
  · intro g hg; unfold resolveFrame; rw [if_neg hg]
  · have hbase : decode_write_loop hw_pix_fmt transfer descOf (Sum.inl f :: rest)
        = .ret e [] := by
      simp only [decode_write_loop, h3]
    obtain ⟨pws, hlen, heq⟩ := (decode_write_loop_resolved_front hw_pix_fmt transfer
      descOf pre (Sum.inl f :: rest) hpre).2 e [] hbase
    exact ⟨pws, hlen, by simpa using heq⟩

/-- Witness for C6 at concrete inputs: a device-formatted frame whose
transfer fails with -2. -/
theorem hw_transfer_policy_witness :
    ((-2 : Int) < 0
      ∧ (⟨1, 2, 2, fun _ _ => 0, fun _ => 2⟩ : HWFrame).format = 1
      ∧ (fun _ : HWFrame => (Except.error (-2) : Except Int HWFrame))
          ⟨1, 2, 2, fun _ _ => 0, fun _ => 2⟩ = .error (-2))
  ∧ ((∀ g : HWFrame, g.format = 1 →
        resolveFrame 1 (fun _ => .error (-2)) g = (fun _ => .error (-2)) g)
      ∧ (∀ g : HWFrame, g.format ≠ 1 →
          resolveFrame 1 (fun _ => .error (-2)) g = .ok g)
      ∧ (resolveFrame 1 (fun _ => .error (-2)) ⟨1, 2, 2, fun _ _ => 0, fun _ => 2⟩
          = .error (-2))
      ∧ (∃ pws, pws.length = 0 ∧
           decode_write_loop 1 (fun _ => .error (-2)) (fun _ => ⟨fun _ _ => []⟩)
             [Sum.inl ⟨1, 2, 2, fun _ _ => 0, fun _ => 2⟩] = .ret (-2) pws)) :=
  ⟨⟨by decide, rfl, rfl⟩,
   hw_transfer_policy 1 (fun _ => .error (-2)) (fun _ => ⟨fun _ _ => []⟩)
     ⟨1, 2, 2, fun _ _ => 0, fun _ => 2⟩ [] [] (-2)
     (by simp) (by decide) rfl rfl⟩

theorem copyPlane_length (src : Nat → Nat) (ls pw : Nat) :
    ∀ ph, (copyPlane src ls pw ph).length = ph * pw := by
  intro ph
  induction ph with
  | zero => simp [copyPlane]
  | succ ph ih => simp [copyPlane, ih, Nat.succ_mul]

theorem copyPlane_get (src : Nat → Nat) (ls pw : Nat) :
    ∀ ph y x, y < ph → x < pw →
      (copyPlane src ls pw ph)[y * pw + x]? = some (src (y * ls + x)) := by
  intro ph
  induction ph with
  | zero => intro y x hy _; exact absurd hy (Nat.not_lt_zero y)
  | succ ph ih =>
    intro y x hy hx
    by_cases hylt : y < ph
    · have hb : y * pw + x < ph * pw := by nlinarith
      rw [copyPlane, List.getElem?_append_left (by rw [copyPlane_length]; exact hb)]
      exact ih y x hylt hx
    · have hy' : y = ph := by omega
      subst hy'
      rw [copyPlane,
        List.getElem?_append_right (by rw [copyPlane_length]; omega),
        copyPlane_length]
      have hsub : y * pw + x - y * pw = x := by omega
      rw [hsub, List.getElem?_map, List.getElem?_range hx]
      rfl

theorem copyPlanes_length (data : Nat → Nat → Nat) (ls : Nat → Nat) :
    ∀ (pds : List (Nat × Nat)) (p : Nat),
      (copyPlanes data ls p pds).length = (pds.map fun pd => pd.1 * pd.2).sum := by
  intro pds
  induction pds with
  | nil => intro p; rfl
  | cons pd pds ih =>
    intro p
    simp only [copyPlanes, List.length_append, copyPlane_length, ih (p + 1),
      List.map_cons, List.sum_cons]
    ring

theorem copyPlanes_get (data : Nat → Nat → Nat) (ls : Nat → Nat) :
    ∀ (pds : List (Nat × Nat)) (p0 i : Nat) (hi : i < pds.length) (y x : Nat),
      y < (pds.get ⟨i, hi⟩).2 → x < (pds.get ⟨i, hi⟩).1 →
      (copyPlanes data ls p0 pds)[(((pds.take i).map fun pd => pd.1 * pd.2).sum
          + y * (pds.get ⟨i, hi⟩).1 + x)]?
        = some (data (p0 + i) (y * ls (p0 + i) + x)) := by
  intro pds
  induction pds with
  | nil => intro p0 i hi; simp at hi
  | cons pd pds ih =>
    intro p0 i hi y x hy hx
    cases i with
    | zero =>
      have e0 : (pd :: pds).get ⟨0, hi⟩ = pd := rfl
      rw [e0] at hy hx
      simp only [e0, List.take_zero, List.map_nil, List.sum_nil, Nat.zero_add,
        Nat.add_zero]
      have hb : y * pd.1 + x < pd.2 * pd.1 := by nlinarith
      rw [copyPlanes, List.getElem?_append_left (by rw [copyPlane_length]; exact hb),
        copyPlane_get (data p0) (ls p0) pd.1 pd.2 y x hy hx]
    | succ i' =>
      have hi' : i' < pds.length := by simpa using hi
      have e1 : (pd :: pds).get ⟨i' + 1, hi⟩ = pds.get ⟨i', hi'⟩ := List.get_cons_succ
      rw [e1] at hy hx
      simp only [e1, List.take_succ_cons, List.map_cons, List.sum_cons]
      rw [copyPlanes]
      have hlen : (copyPlane (data p0) (ls p0) pd.1 pd.2).length = pd.1 * pd.2 := by
        rw [copyPlane_length]; ring
      rw [List.getElem?_append_right (by rw [hlen]; omega), hlen]
      have hidx : pd.1 * pd.2 + (((pds.take i').map fun pd => pd.1 * pd.2).sum)
          + y * (pds.get ⟨i', hi'⟩).1 + x - pd.1 * pd.2
          = ((pds.take i').map fun pd => pd.1 * pd.2).sum
            + y * (pds.get ⟨i', hi'⟩).1 + x := by omega
      rw [hidx]
      have hres := ih (p0 + 1) i' hi' y x hy hx
      have hp : p0 + 1 + i' = p0 + (i' + 1) := by omega
      rw [hp] at hres
      exact hres

/-- C7: the packed buffer size of the hardware decode path is computed
solely from the pixel format and the logical width and height with
alignment 1 — the same for any per-plane strides — and the copy fills that
buffer by reading each plane's rows at its stride while writing them
consecutively, so the output is tightly packed: the byte at packed
position planeOffset + y * planeWidth + x equals the source byte at
strided position y * linesize + x of that plane. -/
theorem packed_copy_strips_strides (d : PixFmtDesc) (w h : Nat)
    (data : Nat → Nat → Nat) (ls ls' : Nat → Nat) :
    ((av_image_copy_to_buffer d w h data ls).length = av_image_get_buffer_size d w h)
  ∧ ((av_image_copy_to_buffer d w h data ls).length
       = (av_image_copy_to_buffer d w h data ls').length)
  ∧ (∀ (p : Nat) (hp : p < (d.planeDims w h).length) (y x : Nat),
       y < ((d.planeDims w h).get ⟨p, hp⟩).2 →
       x < ((d.planeDims w h).get ⟨p, hp⟩).1 →
       (av_image_copy_to_buffer d w h data ls)[(planeOffset d w h p
           + y * ((d.planeDims w h).get ⟨p, hp⟩).1 + x)]?
         = some (data p (y * ls p + x))) := by
  refine ⟨?_, ?_, ?_⟩
  · unfold av_image_copy_to_buffer av_image_get_buffer_size
    exact copyPlanes_length data ls (d.planeDims w h) 0
  · unfold av_image_copy_to_buffer
    rw [copyPlanes_length data ls (d.planeDims w h) 0,
      copyPlanes_length data ls' (d.planeDims w h) 0]
  · intro p hp y x hy hx
    unfold av_image_copy_to_buffer planeOffset
    have hres := copyPlanes_get data ls (d.planeDims w h) 0 p hp y x hy hx
    simpa using hres

/-- Witness for C7 at concrete inputs: a two-plane 4:2:0-style descriptor,
a 2x2 frame, strides 3 and 4. -/
theorem packed_copy_strips_strides_witness :
    ((av_image_copy_to_buffer ⟨fun w h => [(w, h), (w / 2, h / 2)]⟩ 2 2
        (fun p i => 10 * p + i) (fun _ => 3)).length
      = av_image_get_buffer_size ⟨fun w h => [(w, h), (w / 2, h / 2)]⟩ 2 2)
  ∧ ((av_image_copy_to_buffer ⟨fun w h => [(w, h), (w / 2, h / 2)]⟩ 2 2
        (fun p i => 10 * p + i) (fun _ => 3)).length
      = (av_image_copy_to_buffer ⟨fun w h => [(w, h), (w / 2, h / 2)]⟩ 2 2
          (fun p i => 10 * p + i) (fun _ => 4)).length)
  ∧ (∀ (p : Nat)
       (hp : p < ((⟨fun w h => [(w, h), (w / 2, h / 2)]⟩ : PixFmtDesc).planeDims 2 2).length)
       (y x : Nat),
       y < (((⟨fun w h => [(w, h), (w / 2, h / 2)]⟩ : PixFmtDesc).planeDims 2 2).get ⟨p, hp⟩).2 →
       x < (((⟨fun w h => [(w, h), (w / 2, h / 2)]⟩ : PixFmtDesc).planeDims 2 2).get ⟨p, hp⟩).1 →
       (av_image_copy_to_buffer ⟨fun w h => [(w, h), (w / 2, h / 2)]⟩ 2 2
           (fun p i => 10 * p + i) (fun _ => 3))[(planeOffset
             ⟨fun w h => [(w, h), (w / 2, h / 2)]⟩ 2 2 p
           + y * (((⟨fun w h => [(w, h), (w / 2, h / 2)]⟩ : PixFmtDesc).planeDims 2 2).get ⟨p, hp⟩).1
           + x)]?
         = some ((fun p i => 10 * p + i) p (y * (fun _ => 3) p + x))) :=
  packed_copy_strips_strides ⟨fun w h => [(w, h), (w / 2, h / 2)]⟩ 2 2
    (fun p i => 10 * p + i) (fun _ => 3) (fun _ => 4)

theorem decodeDrain_names (filename : String) :
    ∀ (t : List RecvF) (fn fn2 : Nat) (arts : List (String × PGMFile)),
      decodeDrain filename fn t = .ok fn2 arts →
      fn2 = fn + arts.length
      ∧ arts.map Prod.fst
          = (List.range arts.length).map
              fun i => filename ++ "-" ++ toString (fn + i + 1) := by
  intro t
  induction t with
  | nil => intro fn fn2 arts h; simp [decodeDrain] at h
  | cons rf rest ih =>
    intro fn fn2 arts h
    cases rf with
    | code e =>
      simp only [decodeDrain] at h
      by_cases hc : e = AVERROR_EAGAIN ∨ e = AVERROR_EOF
      · rw [if_pos hc] at h
        cases h
        simp
      · rw [if_neg hc] at h
        by_cases hneg : e < 0
        · rw [if_pos hneg] at h; simp at h
        · rw [if_neg hneg] at h; simp at h
    | frame f =>
      cases hr : decodeDrain filename (fn + 1) rest with
      | ok fn3 arts3 =>
        simp only [decodeDrain, hr, DecOut.ok.injEq] at h
        obtain ⟨h1, h2⟩ := h
        subst h1
        subst h2
        obtain ⟨ih1, ih2⟩ := ih (fn + 1) fn3 arts3 hr
        constructor
        · simp only [List.length_cons]
          omega
        · simp only [List.map_cons, List.length_cons]
          rw [ih2, List.range_succ_eq_map, List.map_cons, List.map_map]
          refine congrArg₂ List.cons rfl ?_
          apply List.map_congr_left
          intro a _
          simp only [Function.comp_apply]
          have harith : fn + 1 + a + 1 = fn + Nat.succ a + 1 := by omega
          rw [harith]
      | fatal => simp [decodeDrain, hr] at h
      | stuck => simp [decodeDrain, hr] at h

theorem decode_ok_drain (filename : String) (fn : Nat) (sendRet : Int)
    (tr : List RecvF) (fn1 : Nat) (arts : List (String × PGMFile))
    (h : decode filename fn sendRet tr = .ok fn1 arts) :
    decodeDrain filename fn tr = .ok fn1 arts := by
  unfold decode at h
  by_cases hs : sendRet < 0
  · rw [if_pos hs] at h; simp at h
  · rw [if_neg hs] at h; exact h

/-- C8: over any sequence of decode submissions, every artifact written by
the decode path is named base-N where N is the engine's cumulative frame
counter read at retrieval time: a successful run that starts with counter
fn and saves arts produces exactly the names base-(fn+1), base-(fn+2), ...
in order — strictly increasing and continuing across submit-call
boundaries — and ends with the counter advanced by the number of saved
frames. -/
theorem artifact_names_from_engine_counter (filename : String) :
    ∀ (calls : List (Int × List RecvF)) (fn fn2 : Nat)
      (arts : List (String × PGMFile)),
      decodeRun filename fn calls = .ok fn2 arts →
      fn2 = fn + arts.length
      ∧ arts.map Prod.fst
          = (List.range arts.length).map
              fun i => filename ++ "-" ++ toString (fn + i + 1) := by
  intro calls
  induction calls with
  | nil =>
    intro fn fn2 arts h
    simp only [decodeRun] at h
    cases h
    simp
  | cons c calls ih =>
    intro fn fn2 arts h
    cases hd : decode filename fn c.1 c.2 with
    | ok fn1 arts1 =>
      cases hr : decodeRun filename fn1 calls with
      | ok fn3 arts3 =>
        simp only [decodeRun, hd, hr, DecOut.ok.injEq] at h
        obtain ⟨h1, h2⟩ := h
        subst h1
        subst h2
        obtain ⟨h1, h2⟩ := decodeDrain_names filename c.2 fn fn1 arts1
          (decode_ok_drain filename fn c.1 c.2 fn1 arts1 hd)
        obtain ⟨h3, h4⟩ := ih fn1 fn3 arts3 hr
        constructor
        · simp only [List.length_append]
          omega
        · rw [List.map_append, h2, h4, List.length_append, List.range_add,
            List.map_append, List.map_map]
          refine congrArg₂ (· ++ ·) rfl ?_
          apply List.map_congr_left
          intro a _
          simp only [Function.comp_apply]
          have harith : fn1 + a + 1 = fn + (arts1.length + a) + 1 := by omega
          rw [harith]
      | fatal => simp [decodeRun, hd, hr] at h
      | stuck => simp [decodeRun, hd, hr] at h
    | fatal => simp [decodeRun, hd] at h
    | stuck => simp [decodeRun, hd] at h

/-- Witness for C8 at concrete inputs: two submissions, the first yielding
two frames, the second one frame, starting from engine counter 5. -/
theorem artifact_names_from_engine_counter_witness :
    (decodeRun "out" 5
        [(0, [RecvF.frame ⟨1, 1, 1, fun _ => 9⟩,
              RecvF.frame ⟨1, 1, 1, fun _ => 9⟩,
              RecvF.code AVERROR_EAGAIN]),
         (0, [RecvF.frame ⟨1, 1, 1, fun _ => 9⟩,
              RecvF.code AVERROR_EAGAIN])]
      = .ok 8 [("out-6", pgm_save (fun _ => 9) 1 1 1),
               ("out-7", pgm_save (fun _ => 9) 1 1 1),
               ("out-8", pgm_save (fun _ => 9) 1 1 1)])
  ∧ ((8 : Nat) = 5 + ([("out-6", pgm_save (fun _ => 9) 1 1 1),
               ("out-7", pgm_save (fun _ => 9) 1 1 1),
               ("out-8", pgm_save (fun _ => 9) 1 1 1)] : List (String × PGMFile)).length
      ∧ ([("out-6", pgm_save (fun _ => 9) 1 1 1),
          ("out-7", pgm_save (fun _ => 9) 1 1 1),
          ("out-8", pgm_save (fun _ => 9) 1 1 1)] : List (String × PGMFile)).map Prod.fst
          = (List.range 3).map fun i => "out" ++ "-" ++ toString (5 + i + 1)) := by
  have h : decodeRun "out" 5
      [(0, [RecvF.frame ⟨1, 1, 1, fun _ => 9⟩,
            RecvF.frame ⟨1, 1, 1, fun _ => 9⟩,
            RecvF.code AVERROR_EAGAIN]),
       (0, [RecvF.frame ⟨1, 1, 1, fun _ => 9⟩,
            RecvF.code AVERROR_EAGAIN])]
      = .ok 8 [("out-6", pgm_save (fun _ => 9) 1 1 1),
               ("out-7", pgm_save (fun _ => 9) 1 1 1),
               ("out-8", pgm_save (fun _ => 9) 1 1 1)] := by decide
  exact ⟨h, artifact_names_from_engine_counter "out" _ 5 8 _ h⟩

/-- C10: on the hardware decode path, every packet the read loop submits
to `decode_write` has the selected best video stream's index; every
submitted packet is also released; and a released packet from any other
stream is never among the submissions — the decoder sees a single-stream
input. -/
theorem single_stream_submissions (video_stream : Int) (R : Nat → Int) :
    ∀ (k : Nat) (pkts : List HWPkt),
      (∀ p ∈ (hwMainLoop video_stream R k pkts).1, p.stream_index = video_stream)
    ∧ (∀ p ∈ (hwMainLoop video_stream R k pkts).1,
         p ∈ (hwMainLoop video_stream R k pkts).2)
    ∧ (∀ p ∈ (hwMainLoop video_stream R k pkts).2,
         p.stream_index ≠ video_stream → p ∉ (hwMainLoop video_stream R k pkts).1) := by
  intro k pkts
  induction pkts generalizing k with
  | nil => simp [hwMainLoop]
  | cons p rest ih =>
    by_cases hm : video_stream = p.stream_index
    · by_cases hrk : R k < 0
      · refine ⟨?_, ?_, ?_⟩ <;> simp only [hwMainLoop, if_pos hm, if_pos hrk]
        · intro q hq
          simp only [List.mem_singleton] at hq
          subst hq
          exact hm.symm
        · exact fun q hq => hq
        · intro q hq hne
          simp only [List.mem_singleton] at hq
          subst hq
          exact (hne hm.symm).elim
      · obtain ⟨ih1, ih2, ih3⟩ := ih (k + 1)
        refine ⟨?_, ?_, ?_⟩ <;> simp only [hwMainLoop, if_pos hm, if_neg hrk]
        · intro q hq
          rcases List.mem_cons.mp hq with hq | hq
          · subst hq; exact hm.symm
          · exact ih1 q hq
        · intro q hq
          rcases List.mem_cons.mp hq with hq | hq
          · subst hq; exact List.mem_cons_self q _
          · exact List.mem_cons_of_mem p (ih2 q hq)
        · intro q hq hne
          intro hmem
          rcases List.mem_cons.mp hmem with h | h
          · exact hne (h ▸ hm.symm)
          · exact hne (ih1 q h)
    · obtain ⟨ih1, ih2, ih3⟩ := ih k
      refine ⟨?_, ?_, ?_⟩ <;> simp only [hwMainLoop, if_neg hm]
      · exact ih1
      · intro q hq
        exact List.mem_cons_of_mem p (ih2 q hq)
      · intro q hq hne
        intro hmem
        exact hne (ih1 q hmem)

/-- Witness for C10 at concrete inputs: a matching and a non-matching
packet. -/
theorem single_stream_submissions_witness :
    (∀ p ∈ (hwMainLoop 1 (fun _ => 0) 0 [⟨1, 0⟩, ⟨2, 1⟩]).1, p.stream_index = 1)
  ∧ (∀ p ∈ (hwMainLoop 1 (fun _ => 0) 0 [⟨1, 0⟩, ⟨2, 1⟩]).1,
       p ∈ (hwMainLoop 1 (fun _ => 0) 0 [⟨1, 0⟩, ⟨2, 1⟩]).2)
  ∧ (∀ p ∈ (hwMainLoop 1 (fun _ => 0) 0 [⟨1, 0⟩, ⟨2, 1⟩]).2,
       p.stream_index ≠ 1 → p ∉ (hwMainLoop 1 (fun _ => 0) 0 [⟨1, 0⟩, ⟨2, 1⟩]).1) :=
  single_stream_submissions 1 (fun _ => 0) 0 [⟨1, 0⟩, ⟨2, 1⟩]
